import Mathlib

/-!
Shallow embedding of the TightDB low-level synchronization layer
(`src/tightdb/util/thread.hpp`) and of the benchmark median computation
(`test/bench/util/results.cpp`).

Stateful C++ code is embedded as explicit state passing together with a
trace of the externally visible calls each operation performs (locking,
unlocking, semaphore operations, invoking a recovery callback, and so
on).  Exceptions are embedded as an explicit outcome value.  Machine
integers are embedded as `Nat` with reduction modulo `2 ^ 64`
(`uint64_t`) or `2 ^ 32` (`uint32_t`) where the source performs
arithmetic on them.
-/

namespace Tightdb

/-- Externally visible calls performed by the synchronization
primitives; sequences of these form the trace of an operation. -/
inductive Ev where
  /-- Mutex.lock / pthread_mutex_lock -/
  | lock
  /-- Mutex.unlock / pthread_mutex_unlock -/
  | unlock
  /-- RobustMutex.low_level_lock (acquires the mutex) -/
  | lowLevelLock
  /-- invocation of the caller-supplied recovery callback -/
  | recover
  /-- RobustMutex.mark_as_consistent -/
  | markAsConsistent
  /-- sem_wait on the emulation semaphore -/
  | semWait
  /-- sem_post on the emulation semaphore -/
  | semPost
  /-- sched_yield -/
  | schedYield
  /-- sem_close on the emulation semaphore handle -/
  | semClose
  /-- pthread_cond_destroy (and delete) of the private condition variable -/
  | condDestroy
  /-- pthread_cond_wait on a native condition variable -/
  | condWait
  /-- pthread_cond_timedwait on a native condition variable -/
  | condTimedWait
  /-- CondVar.handle_wait_error -/
  | handleWaitError
  deriving DecidableEq, Repr

/-- How a call that may propagate a C++ exception finished: normal
return or exception propagation. -/
inductive Outcome where
  | ret
  | threw
  deriving DecidableEq, Repr

/-- Effect of one call on the calling thread's ownership of the mutex:
`Ev.lock` and `Ev.lowLevelLock` acquire it, `Ev.unlock` releases it. -/
def evDelta : Ev → Int
  | Ev.lock => 1
  | Ev.lowLevelLock => 1
  | Ev.unlock => -1
  | _ => 0

/-- Net effect of a trace on the calling thread's ownership of the
mutex. -/
def mutexDelta (tr : List Ev) : Int :=
  (tr.map evDelta).sum

/-! ## RobustMutex (thread.hpp, `RobustMutex::lock`)

`low_level_lock()` and `mark_as_consistent()` are implemented in
`thread.cpp`, outside the embedded sources; only their observable result
matters to `lock`, so the boolean returned by `low_level_lock` and
whether the recovery callback returns normally are inputs of the
embedding, and the calls themselves are recorded on the trace. -/

namespace RobustMutex

/-- RobustMutex.lock(recover_func) from thread.hpp.
`noThreadHasDied` is the value returned by `low_level_lock()`;
`recoverOk` tells whether `recover_func()` returns normally (`true`) or
throws (`false`).  The result is the trace of calls performed and
whether `lock` returns normally or propagates the exception. -/
def lockR (noThreadHasDied : Bool) (recoverOk : Bool) : List Ev × Outcome :=
  if noThreadHasDied then
    ([Ev.lowLevelLock], Outcome.ret)
  else if recoverOk then
    ([Ev.lowLevelLock, Ev.recover, Ev.markAsConsistent], Outcome.ret)
  else
    ([Ev.lowLevelLock, Ev.recover, Ev.unlock], Outcome.threw)

end RobustMutex

/-! ## CondVar shared part (emulation mode)

With TIGHTDB_CONDVAR_EMULATION, `CondVar::SharedPart` is a
`uint64_t signal_counter` and a `uint32_t waiters`. -/

/-- CondVar.SharedPart in emulation mode: `signal_counter` is a
`uint64_t`, `waiters` a `uint32_t`; both are kept as `Nat` below their
bit width. -/
structure SharedPart where
  signal_counter : Nat
  waiters : Nat
  deriving DecidableEq, Repr

namespace CondVar

/-- The `while (m_shared_part->waiters) { sem_post(m_sem); --m_shared_part->waiters; }`
loop of CondVar.notify_all: posts one permit per registered waiter and
drains the count to zero. -/
def drainWaiters : Nat → List Ev
  | 0 => []
  | n + 1 => Ev.semPost :: drainWaiters n

/-- CondVar.notify_all in emulation mode (`m_sem` non-null), acting on
the bound SharedPart: increment the signal counter, then post one
semaphore permit per registered waiter while decrementing the waiter
count to zero. -/
def notify_all (sp : SharedPart) : SharedPart × List Ev :=
  let sp1 : SharedPart :=
    { sp with signal_counter := (sp.signal_counter + 1) % 2 ^ 64 }
  ({ sp1 with waiters := 0 }, drainWaiters sp1.waiters)

/-- CondVar.notify in emulation mode (`m_sem` non-null): increment the
signal counter; if any waiter is registered, post one semaphore permit
and decrement the waiter count. -/
def notify (sp : SharedPart) : SharedPart × List Ev :=
  let sp1 : SharedPart :=
    { sp with signal_counter := (sp.signal_counter + 1) % 2 ^ 64 }
  if sp1.waiters ≠ 0 then
    ({ sp1 with waiters := sp1.waiters - 1 }, [Ev.semPost])
  else
    (sp1, [])

end CondVar

/-! ## Atomic (thread.hpp, `Atomic<T>::compare_and_swap`)

The cell state and the `oldvalue` in/out reference are passed
explicitly; each variant returns the new cell state, the value left in
`oldvalue`, and the boolean result.  The C++11 variant uses
`compare_exchange_weak`, which may fail spuriously; the spurious case is
an input of the embedding (`spurious`): the hardware may refuse the
exchange even when the values match, in which case `oldvalue` receives
the (unchanged) observed state. -/

namespace Atomic

/-- Atomic.compare_and_swap, C++11 variant
(`state.compare_exchange_weak(oldvalue, newvalue)`): on success the cell
receives `newvalue` and the call returns `true`; on failure (mismatch or
spurious) the cell is unchanged, `oldvalue` receives the observed value
and the call returns `false`. -/
def casCxx11 {T : Type} [DecidableEq T] (state oldvalue newvalue : T)
    (spurious : Bool) : T × T × Bool :=
  if state = oldvalue ∧ spurious = false then (newvalue, oldvalue, true)
  else (state, state, false)

/-- Atomic.compare_and_swap, modern GCC/clang builtin variant
(`__atomic_compare_exchange_n(&state, &oldvalue, newvalue, false, ...)`,
a strong CAS since `weak` is passed as `false`): exchanges exactly when
the cell equals `oldvalue`; on failure `oldvalue` receives the observed
value. -/
def casGcc {T : Type} [DecidableEq T] (state oldvalue newvalue : T) :
    T × T × Bool :=
  if state = oldvalue then (newvalue, oldvalue, true)
  else (state, state, false)

/-- Atomic.compare_and_swap, legacy `__sync` variant:
`T ov = oldvalue; oldvalue = __sync_val_compare_and_swap(&state, oldvalue, newvalue);
return ov == oldvalue;` where `__sync_val_compare_and_swap` stores
`newvalue` iff the cell equals `oldvalue` and returns the prior cell
value. -/
def casSync {T : Type} [DecidableEq T] (state oldvalue newvalue : T) :
    T × T × Bool :=
  let ov := oldvalue
  let prior := state
  let state1 := if state = oldvalue then newvalue else state
  let oldvalue1 := prior
  (state1, oldvalue1, decide (ov = oldvalue1))

end Atomic

/-! ## Thread (thread.hpp)

`std::terminate()` and a `create_failed` throw are embedded as explicit
result constructors. -/

/-- Thread: the `m_joinable` flag is the only state the embedded claims
depend on (`m_id` is only meaningful while joinable). -/
structure Thread where
  m_joinable : Bool
  deriving DecidableEq, Repr

namespace Thread

/-- Result of Thread.start: `std::terminate()` was called, the
underlying `pthread_create` failed and `create_failed` threw, or the
thread was started. -/
inductive StartRes where
  | terminated
  | threw
  | ok (t : Thread)
  deriving DecidableEq, Repr

/-- Thread default constructor: `m_joinable(false)`. -/
def default_ctor : Thread := { m_joinable := false }

/-- Thread.start(func): `if (m_joinable) std::terminate();` then start
the new thread (`createOk` tells whether `pthread_create` succeeds; on
failure `create_failed` throws and `m_joinable` is never set) and set
`m_joinable = true`. -/
def start (t : Thread) (createOk : Bool) : StartRes :=
  if t.m_joinable then StartRes.terminated
  else if createOk then StartRes.ok { m_joinable := true }
  else StartRes.threw

/-- Thread constructor from a function: `m_joinable(true)` in the
initializer list, then start the thread; if `pthread_create` fails the
constructor throws and no object is produced. -/
def ctor_with_func (createOk : Bool) : Option Thread :=
  if createOk then some { m_joinable := true } else none

/-- Thread destructor: `if (m_joinable) std::terminate();`.  `true`
means the destructor returned normally, `false` that it called
`std::terminate()`. -/
def dtor_returns (t : Thread) : Bool :=
  !t.m_joinable

end Thread

/-! ## Mutex and ownership guards (thread.hpp)

For the guard claims the referenced mutex is embedded as its held/free
state as seen by the single guard under consideration.  `Mutex::lock` on
a mutex already held by the caller never returns (a non-recursive
pthread mutex deadlocks), and `Mutex::unlock` of a mutex that is not
held is a usage error (`pthread_mutex_unlock` does not return 0 and the
assertion in `Mutex::unlock` fails); both are embedded as `none`. -/

namespace Mutex

/-- Mutex.lock as observed by the owning guard: blocks forever (no
result) when the mutex is already held, otherwise acquires it. -/
def lockM : Bool → Option Bool :=
  fun held => if held then none else some true

/-- Mutex.unlock: releases the mutex; unlocking a mutex that is not
held is an error. -/
def unlockM : Bool → Option Bool :=
  fun held => if held then some false else none

end Mutex

namespace LockGuard

/-- LockGuard constructor: immediately locks the referenced mutex. -/
def ctor (held : Bool) : Option (Bool × List Ev) :=
  (Mutex.lockM held).map (fun h => (h, [Ev.lock]))

/-- LockGuard destructor: unconditionally unlocks the referenced
mutex. -/
def dtor (held : Bool) : Option (Bool × List Ev) :=
  (Mutex.unlockM held).map (fun h => (h, [Ev.unlock]))

/-- A full LockGuard lifetime: construction from an unlocked mutex
followed by destruction, with the complete trace. -/
def scope : Option (Bool × List Ev) :=
  match ctor false with
  | none => none
  | some (h, tr0) => (dtor h).map (fun r => (r.1, tr0 ++ r.2))

end LockGuard

/-- UniqueLock: the guard's own state is the `m_is_locked` flag. -/
structure UniqueLock where
  m_is_locked : Bool
  deriving DecidableEq, Repr

/-- An operation a caller may perform on a UniqueLock between its
construction and its destruction. -/
inductive ULOp where
  | lock
  | unlock
  deriving DecidableEq, Repr

namespace UniqueLock

/-- UniqueLock(Mutex&) constructor: locks the mutex, then sets
`m_is_locked = true`. -/
def ctor (held : Bool) : Option (UniqueLock × Bool × List Ev) :=
  (Mutex.lockM held).map (fun h => ({ m_is_locked := true }, h, [Ev.lock]))

/-- UniqueLock(Mutex&, defer_lock_tag) constructor: `m_is_locked =
false`, the mutex is not touched. -/
def ctorDefer : UniqueLock :=
  { m_is_locked := false }

/-- UniqueLock.lock(): locks the mutex, then sets `m_is_locked =
true`. -/
def lockU (g : UniqueLock) (held : Bool) : Option (UniqueLock × Bool × List Ev) :=
  let _ := g
  (Mutex.lockM held).map (fun h => ({ m_is_locked := true }, h, [Ev.lock]))

/-- UniqueLock.unlock(): unlocks the mutex, then sets `m_is_locked =
false`. -/
def unlockU (g : UniqueLock) (held : Bool) : Option (UniqueLock × Bool × List Ev) :=
  let _ := g
  (Mutex.unlockM held).map (fun h => ({ m_is_locked := false }, h, [Ev.unlock]))

/-- UniqueLock destructor: `if (m_is_locked) m_mutex->unlock();`. -/
def dtor (g : UniqueLock) (held : Bool) : Option (Bool × List Ev) :=
  if g.m_is_locked then (Mutex.unlockM held).map (fun h => (h, [Ev.unlock]))
  else some (held, [])

/-- One caller-chosen lock/unlock call on the guard. -/
def step : ULOp → UniqueLock × Bool → Option (UniqueLock × Bool × List Ev)
  | ULOp.lock, (g, held) => g.lockU held
  | ULOp.unlock, (g, held) => g.unlockU held

/-- A sequence of caller-chosen lock/unlock calls on the guard,
accumulating the trace. -/
def run : List ULOp → UniqueLock × Bool → Option (UniqueLock × Bool × List Ev)
  | [], (g, held) => some (g, held, [])
  | op :: ops, (g, held) =>
    match step op (g, held) with
    | none => none
    | some (g1, h1, tr1) =>
      (run ops (g1, h1)).map (fun r => (r.1, r.2.1, tr1 ++ r.2.2))

/-- A full UniqueLock lifetime: construction from an unlocked mutex, a
sequence of caller operations, then destruction.  The result is the
final mutex state and the complete trace. -/
def lifecycle (ops : List ULOp) : Option (Bool × List Ev) :=
  match ctor false with
  | none => none
  | some (g, h, tr0) =>
    match run ops (g, h) with
    | none => none
    | some (g1, h1, tr1) =>
      (dtor g1 h1).map (fun r => (r.1, tr0 ++ tr1 ++ r.2))

end UniqueLock

/-- Number of mutex acquisitions minus releases recorded on a trace,
restricted to the plain `Ev.lock` / `Ev.unlock` calls the guards
perform. -/
def lockBalance (tr : List Ev) : Int :=
  (tr.count Ev.lock : Int) - (tr.count Ev.unlock : Int)

/-! ## CondVar handle and close (thread.hpp, `CondVar::close`) -/

/-- The per-handle (process-local) state of a CondVar: whether
`m_shared_part`, `m_sem` and `m_cond` are non-null.  The SharedPart the
handle may be bound to lives elsewhere (in shared memory) and is passed
separately. -/
structure CondVarHandle where
  m_shared_part : Bool
  m_sem : Bool
  m_cond : Bool
  deriving DecidableEq, Repr

namespace CondVar

/-- CondVar.close: if a semaphore handle is open (emulation), close it
and return early without touching anything else; otherwise destroy and
free the private process-local condition variable if one is owned, and
finally clear the shared-part pointer.  `sp` is the content of the
SharedPart the handle is bound to (of either the emulated or the native
layout, hence an arbitrary type): close only manipulates the handle's
own fields and never writes through `m_shared_part`. -/
def close {α : Type} (h : CondVarHandle) (sp : α) : CondVarHandle × α × List Ev :=
  if h.m_sem then
    ({ h with m_sem := false }, sp, [Ev.semClose])
  else
    let p := if h.m_cond then
        (({ h with m_cond := false } : CondVarHandle), [Ev.condDestroy])
      else (h, ([] : List Ev))
    ({ p.1 with m_shared_part := false }, sp, p.2)

end CondVar

/-! ## CondVar wait, emulated process-shared mode (thread.hpp)

The wait loops interact with concurrently running notifiers: the values
of `m_shared_part->signal_counter` read at each reacquisition of the
mutex are environment inputs, passed as a list (one entry per loop
iteration the environment allows to run; an empty remainder means the
thread is still blocked in `sem_wait`).  A `none` result therefore means
the wait has not returned under the given environment schedule. -/

namespace CondVar

/-- The retry loop of CondVar.wait(LockGuard&) under emulation:
`sem_wait`, reacquire the mutex, break if the signal counter moved past
the snapshot `my_counter`, otherwise post the permit back, yield,
release the mutex and retry.  `obs` lists the counter values read at
each iteration. -/
def waitLoopLG (my_counter : Nat) : List Nat → Option (List Ev)
  | [] => none
  | c :: rest =>
    if c ≠ my_counter then some [Ev.semWait, Ev.lock]
    else (waitLoopLG my_counter rest).map
      (fun tr => Ev.semWait :: Ev.lock :: Ev.semPost :: Ev.schedYield ::
        Ev.unlock :: tr)

/-- CondVar.wait(LockGuard&) under emulation (`m_sem` non-null):
increment the waiter count and snapshot the signal counter while the
mutex is still held, release the mutex, then run the retry loop.  The
first component is the SharedPart as updated by this call's own write
(the waiter-count increment, a `uint32_t` increment). -/
def waitLG (sp : SharedPart) (obs : List Nat) : SharedPart × Option (List Ev) :=
  let sp1 : SharedPart := { sp with waiters := (sp.waiters + 1) % 2 ^ 32 }
  let my_counter := sp1.signal_counter
  (sp1, (waitLoopLG my_counter obs).map (fun tr => Ev.unlock :: tr))

/-- The trace produced by a wait loop that runs `k` unsuccessful
iterations (counter unchanged: post the permit back, yield, unlock,
retry) followed by the final successful one (counter advanced: return
with the mutex reacquired). -/
def retryTrace : Nat → List Ev
  | 0 => [Ev.semWait, Ev.lock]
  | n + 1 => Ev.semWait :: Ev.lock :: Ev.semPost :: Ev.schedYield ::
      Ev.unlock :: retryTrace n

/-- Per-iteration environment for the robust-mutex wait loop: the
behavior of `m.lock(recover_func)` at this reacquisition. -/
structure LockEnv where
  noThreadHasDied : Bool
  recoverOk : Bool
  deriving DecidableEq, Repr

/-- The retry loop of CondVar.wait(RobustMutex&, recover_func) under
emulation: as `waitLoopLG`, except the mutex is reacquired with
`RobustMutex::lock(recover_func)`, whose exception (failed recovery)
propagates out of the wait.  Each iteration's input is the robust-lock
environment together with the signal-counter value read. -/
def waitLoopRM (my_counter : Nat) : List (LockEnv × Nat) → Option (List Ev × Outcome)
  | [] => none
  | (env, c) :: rest =>
    let l := RobustMutex.lockR env.noThreadHasDied env.recoverOk
    match l.2 with
    | Outcome.threw => some (Ev.semWait :: l.1, Outcome.threw)
    | Outcome.ret =>
      if c ≠ my_counter then some (Ev.semWait :: l.1, Outcome.ret)
      else (waitLoopRM my_counter rest).map
        (fun p => (Ev.semWait :: l.1 ++ Ev.semPost :: Ev.schedYield ::
          Ev.unlock :: p.1, p.2))

/-- CondVar.wait(RobustMutex&, recover_func, tp) under emulation
(`m_sem` non-null; `tp` must be null there): increment the waiter count
and snapshot the signal counter while the mutex is still held, release
the mutex, then run the retry loop. -/
def waitRM (sp : SharedPart) (obs : List (LockEnv × Nat)) :
    SharedPart × Option (List Ev × Outcome) :=
  let sp1 : SharedPart := { sp with waiters := (sp.waiters + 1) % 2 ^ 32 }
  let my_counter := sp1.signal_counter
  (sp1, (waitLoopRM my_counter obs).map (fun p => (Ev.unlock :: p.1, p.2)))

end CondVar

/-! ## CondVar wait, non-emulated path with timeout (thread.hpp) -/

/-- Result of the underlying `pthread_cond_timedwait` /
`pthread_cond_wait` call: success, `ETIMEDOUT`, or some other error. -/
inductive TimedWaitRes where
  | ok
  | timedout
  | fail
  deriving DecidableEq, Repr

namespace CondVar

/-- The non-emulated path of CondVar.wait(RobustMutex&, recover_func,
tp) with a non-null timeout `tp`: call `pthread_cond_timedwait`; if it
reports `ETIMEDOUT`, return immediately; if it succeeds, return; on any
other error, call `handle_wait_error` (implemented in thread.cpp; per
its use here it returns for errors that leave the mutex reacquired in
the inconsistent state) and then run the same recovery sequence as
`RobustMutex::lock`. -/
def waitRMNative (r : TimedWaitRes) (recoverOk : Bool) : List Ev × Outcome :=
  match r with
  | TimedWaitRes.timedout => ([Ev.condTimedWait], Outcome.ret)
  | TimedWaitRes.ok => ([Ev.condTimedWait], Outcome.ret)
  | TimedWaitRes.fail =>
    if recoverOk then
      ([Ev.condTimedWait, Ev.handleWaitError, Ev.recover,
        Ev.markAsConsistent], Outcome.ret)
    else
      ([Ev.condTimedWait, Ev.handleWaitError, Ev.recover, Ev.unlock],
        Outcome.threw)

end CondVar

/-! ## Benchmark median (test/bench/util/results.cpp,
`Results::Measurement::finish`)

Samples are `double` in the source; the index arithmetic of the median
computation does not depend on the sample values, which are embedded as
rationals.  The out-of-bounds vector read `samples[i]` with
`i >= samples.size()` (undefined behavior in C++) is embedded as a
`none` result via `List.get?`. -/

namespace Results

/-- The median computation of Results.Measurement.finish, applied to
the sorted sample list: with `rep = samples.size()` and `rep > 0`, the
median is `samples[rep/2]` for odd `rep` and
`(samples[rep/2] + samples[rep/2+1]) / 2` for even `rep`. -/
def medianOfSorted (samples : List ℚ) : Option ℚ :=
  let rep := samples.length
  if 0 < rep then
    if rep % 2 = 0 then
      (samples.get? (rep / 2)).bind (fun a =>
        (samples.get? (rep / 2 + 1)).map (fun b => (a + b) / 2))
    else
      samples.get? (rep / 2)
  else none

end Results

end Tightdb

namespace Tightdb

/-- C1: RobustMutex.lock(recover_func) first performs low_level_lock(); if it
reports true, lock returns immediately with the recovery callback never
invoked; if it reports false and the callback returns normally, lock calls
mark_as_consistent() and returns with the lock held; if the callback throws,
lock calls unlock() without mark_as_consistent() and propagates the
exception (ending not holding the lock). -/
theorem robust_mutex_lock_spec :
    ∀ noThreadHasDied recoverOk : Bool,
      RobustMutex.lockR noThreadHasDied recoverOk =
        (if noThreadHasDied then ([Ev.lowLevelLock], Outcome.ret)
         else if recoverOk then
           ([Ev.lowLevelLock, Ev.recover, Ev.markAsConsistent], Outcome.ret)
         else ([Ev.lowLevelLock, Ev.recover, Ev.unlock], Outcome.threw)) ∧
      (noThreadHasDied = true →
        Ev.recover ∉ (RobustMutex.lockR noThreadHasDied recoverOk).1) ∧
      ((RobustMutex.lockR noThreadHasDied recoverOk).2 = Outcome.ret →
        mutexDelta (RobustMutex.lockR noThreadHasDied recoverOk).1 = 1) ∧
      ((RobustMutex.lockR noThreadHasDied recoverOk).2 = Outcome.threw →
        mutexDelta (RobustMutex.lockR noThreadHasDied recoverOk).1 = 0 ∧
        Ev.markAsConsistent ∉ (RobustMutex.lockR noThreadHasDied recoverOk).1) := by
  decide

/-- Witness for C1 at the throwing-recovery input. -/
theorem robust_mutex_lock_spec_witness :
    RobustMutex.lockR false false =
      ([Ev.lowLevelLock, Ev.recover, Ev.unlock], Outcome.threw) :=
  ((robust_mutex_lock_spec false false).1).trans (by decide)

/-- C5: in each implementation variant of Atomic.compare_and_swap (C++11
weak, modern GCC/clang strong builtin, legacy __sync), a `true` result
occurs only when the observed cell value equaled the expected value and the
cell now holds the new value; spurious failure of the C++11 weak variant
leaves the cell unchanged even when the values match. -/
theorem atomic_cas_spec :
    ∀ (state oldvalue newvalue : Nat) (spurious : Bool),
      ((Atomic.casCxx11 state oldvalue newvalue spurious).2.2 = true →
        state = oldvalue ∧
        (Atomic.casCxx11 state oldvalue newvalue spurious).1 = newvalue) ∧
      ((Atomic.casGcc state oldvalue newvalue).2.2 = true →
        state = oldvalue ∧
        (Atomic.casGcc state oldvalue newvalue).1 = newvalue) ∧
      ((Atomic.casSync state oldvalue newvalue).2.2 = true →
        state = oldvalue ∧
        (Atomic.casSync state oldvalue newvalue).1 = newvalue) ∧
      (state = oldvalue → spurious = true →
        (Atomic.casCxx11 state oldvalue newvalue spurious).2.2 = false ∧
        (Atomic.casCxx11 state oldvalue newvalue spurious).1 = state) := by
  intro state oldvalue newvalue spurious
  refine ⟨?_, ?_, ?_, ?_⟩
  · intro h
    by_cases he : state = oldvalue ∧ spurious = false
    · exact ⟨he.1, by simp [Atomic.casCxx11, he]⟩
    · simp [Atomic.casCxx11, he] at h
  · intro h
    by_cases he : state = oldvalue
    · exact ⟨he, by simp [Atomic.casGcc, he]⟩
    · simp [Atomic.casGcc, he] at h
  · intro h
    by_cases he : state = oldvalue
    · exact ⟨he, by simp [Atomic.casSync, he]⟩
    · simp [Atomic.casSync, he] at h
      exact absurd h.symm he
  · intro he hs
    constructor <;> simp [Atomic.casCxx11, hs]

/-- Witness for C5 at a matching CAS that succeeds and a matching CAS that
fails spuriously. -/
theorem atomic_cas_spec_witness :
    ((7 : Nat) = 7 ∧ (Atomic.casCxx11 7 7 9 false).1 = 9) ∧
    ((Atomic.casCxx11 7 7 9 true).2.2 = false ∧
      (Atomic.casCxx11 7 7 9 true).1 = 7) :=
  ⟨(atomic_cas_spec 7 7 9 false).1 (by decide),
   (atomic_cas_spec 7 7 9 true).2.2.2 rfl rfl⟩

/-- C10: a default-constructed Thread is not joinable; after a successful
start or a successful construction with a function the Thread is joinable;
start() on an already joinable Thread calls std::terminate, and destroying a
Thread while still joinable calls std::terminate. -/
theorem thread_joinable_spec :
    Thread.default_ctor.m_joinable = false ∧
    (∀ t : Thread, t.m_joinable = false →
      Thread.start t true = Thread.StartRes.ok { m_joinable := true }) ∧
    (∀ t : Thread, ∀ createOk : Bool, t.m_joinable = true →
      Thread.start t createOk = Thread.StartRes.terminated) ∧
    (Thread.ctor_with_func true = some { m_joinable := true }) ∧
    (∀ t : Thread, Thread.dtor_returns t = false ↔ t.m_joinable = true) := by
  refine ⟨rfl, ?_, ?_, rfl, ?_⟩
  · intro t h; simp [Thread.start, h]
  · intro t createOk h; simp [Thread.start, h]
  · intro t; cases t with
    | mk j => cases j <;> simp [Thread.dtor_returns]

/-- Witness for C10: starting a fresh thread succeeds, starting it again
terminates. -/
theorem thread_joinable_spec_witness :
    Thread.start { m_joinable := false } true =
      Thread.StartRes.ok { m_joinable := true } ∧
    Thread.start { m_joinable := true } true = Thread.StartRes.terminated :=
  ⟨thread_joinable_spec.2.1 { m_joinable := false } rfl,
   thread_joinable_spec.2.2.1 { m_joinable := true } true rfl⟩

end Tightdb

namespace Tightdb

/-- C3: in emulated process-shared mode, CondVar.notify_all increments the
shared signal counter exactly once (as a uint64), posts exactly one semaphore
permit per waiter registered at the moment of the call, and leaves the waiter
count equal to zero on return. -/
theorem condvar_notify_all_spec (sp : SharedPart) :
    (CondVar.notify_all sp).1.signal_counter = (sp.signal_counter + 1) % 2 ^ 64 ∧
    (CondVar.notify_all sp).1.waiters = 0 ∧
    ((CondVar.notify_all sp).2.count Ev.semPost = sp.waiters ∧
     ∀ e, e ∈ (CondVar.notify_all sp).2 → e = Ev.semPost) := by
  refine ⟨rfl, rfl, ?_, ?_⟩
  · show (CondVar.drainWaiters sp.waiters).count Ev.semPost = sp.waiters
    induction sp.waiters with
    | zero => rfl
    | succ n ih => simpa [CondVar.drainWaiters, List.count_cons] using ih
  · show ∀ e, e ∈ CondVar.drainWaiters sp.waiters → e = Ev.semPost
    induction sp.waiters with
    | zero => intro e h; cases h
    | succ n ih =>
      intro e h
      rcases List.mem_cons.mp h with h1 | h1
      · exact h1
      · exact ih e h1

/-- C4: in emulated process-shared mode, CondVar.notify increments the shared
signal counter (as a uint64); with at least one registered waiter it posts
exactly one semaphore permit and decrements the waiter count by one, and with
no registered waiter it posts no permit and leaves the waiter count at zero,
so a notify with no waiters leaves no spurious semaphore permit behind. -/
theorem condvar_notify_spec (sp : SharedPart) :
    CondVar.notify sp =
      (if sp.waiters = 0 then
        ({ signal_counter := (sp.signal_counter + 1) % 2 ^ 64, waiters := 0 }, [])
      else
        ({ signal_counter := (sp.signal_counter + 1) % 2 ^ 64,
           waiters := sp.waiters - 1 }, [Ev.semPost])) := by
  by_cases h : sp.waiters = 0 <;> simp [CondVar.notify, h]

end Tightdb

namespace Tightdb

/-- Witness for C3 at a shared part with three registered waiters. -/
theorem condvar_notify_all_spec_witness :
    (CondVar.notify_all { signal_counter := 5, waiters := 3 }).1.waiters = 0 :=
  (condvar_notify_all_spec { signal_counter := 5, waiters := 3 }).2.1

end Tightdb

namespace Tightdb

/-- C6: in the non-emulated path of CondVar.wait(RobustMutex&, recover_func,
tp) with a non-null timeout, a timeout report from the underlying timed wait
makes the call return normally (no exception), without invoking the recovery
callback and without calling mark_as_consistent or unlock; this early-return
path is distinct from the error path that runs the recovery sequence. -/
theorem condvar_timedwait_timeout_spec :
    ∀ recoverOk : Bool,
      CondVar.waitRMNative TimedWaitRes.timedout recoverOk =
        ([Ev.condTimedWait], Outcome.ret) ∧
      Ev.recover ∉ (CondVar.waitRMNative TimedWaitRes.timedout recoverOk).1 ∧
      Ev.markAsConsistent ∉
        (CondVar.waitRMNative TimedWaitRes.timedout recoverOk).1 ∧
      Ev.unlock ∉ (CondVar.waitRMNative TimedWaitRes.timedout recoverOk).1 ∧
      (CondVar.waitRMNative TimedWaitRes.fail recoverOk).1 ≠
        (CondVar.waitRMNative TimedWaitRes.timedout recoverOk).1 := by
  decide

/-- Witness for C6 at a recovery callback that would throw: timeout still
returns normally without touching it. -/
theorem condvar_timedwait_timeout_spec_witness :
    CondVar.waitRMNative TimedWaitRes.timedout false =
      ([Ev.condTimedWait], Outcome.ret) :=
  (condvar_timedwait_timeout_spec false).1

/-- C8: CondVar.close leaves the SharedPart content (whatever its layout)
unchanged in every case; it only releases the handle's own resources: with an
open semaphore handle it closes just that, otherwise it destroys the owned
process-local condition variable (if any) and clears only the handle's
shared-part pointer. -/
theorem condvar_close_spec {α : Type} (h : CondVarHandle) (sp : α) :
    (CondVar.close h sp).2.1 = sp ∧
    (h.m_sem = true →
      CondVar.close h sp = ({ h with m_sem := false }, sp, [Ev.semClose])) ∧
    (h.m_sem = false → h.m_cond = true →
      CondVar.close h sp =
        ({ m_shared_part := false, m_sem := false, m_cond := false }, sp,
         [Ev.condDestroy])) ∧
    (h.m_sem = false → h.m_cond = false →
      CondVar.close h sp = ({ h with m_shared_part := false }, sp, [])) := by
  obtain ⟨p, s, c⟩ := h
  cases s <;> cases c <;> simp [CondVar.close]

/-- Witness for C8: closing an emulation-mode handle bound to a shared part
leaves the shared part value intact. -/
theorem condvar_close_spec_witness :
    (CondVar.close { m_shared_part := true, m_sem := true, m_cond := false }
      ({ signal_counter := 5, waiters := 2 } : SharedPart)).2.1 =
      ({ signal_counter := 5, waiters := 2 } : SharedPart) :=
  (condvar_close_spec { m_shared_part := true, m_sem := true, m_cond := false }
    ({ signal_counter := 5, waiters := 2 } : SharedPart)).1

/-- C9: in Results.Measurement.finish, for a sorted non-empty sample list of
size rep the median is samples[rep/2] for odd rep (an always in-bounds
index), and (samples[rep/2] + samples[rep/2+1])/2 for even rep; for rep = 2
the second index rep/2 + 1 equals rep and the read is out of bounds. -/
theorem results_median_spec :
    (∀ samples : List ℚ, samples.length % 2 = 1 →
      samples.length / 2 < samples.length ∧
      Results.medianOfSorted samples = samples.get? (samples.length / 2) ∧
      (Results.medianOfSorted samples).isSome = true) ∧
    (∀ samples : List ℚ, samples.length % 2 = 0 → 0 < samples.length →
      Results.medianOfSorted samples =
        (samples.get? (samples.length / 2)).bind (fun a =>
          (samples.get? (samples.length / 2 + 1)).map (fun b => (a + b) / 2))) ∧
    (∀ samples : List ℚ, samples.length = 2 →
      samples.length / 2 + 1 = samples.length ∧
      Results.medianOfSorted samples = none) := by
  refine ⟨?_, ?_, ?_⟩
  · intro samples hodd
    have hpos : 0 < samples.length := by omega
    have hlt : samples.length / 2 < samples.length :=
      Nat.div_lt_self hpos one_lt_two
    have hne : ¬ samples.length % 2 = 0 := by omega
    have hmed : Results.medianOfSorted samples =
        samples.get? (samples.length / 2) := by
      simp [Results.medianOfSorted, hpos, hne]
    refine ⟨hlt, hmed, ?_⟩
    rw [hmed, List.get?_eq_get hlt]
    rfl
  · intro samples heven hpos
    simp [Results.medianOfSorted, hpos, heven]
  · intro samples h2
    have hidx : samples.length / 2 + 1 = samples.length := by omega
    have hnone : samples.get? (samples.length / 2 + 1) = none :=
      List.get?_len_le (by omega)
    refine ⟨hidx, ?_⟩
    have hpos : 0 < samples.length := by omega
    have heven : samples.length % 2 = 0 := by omega
    rw [show Results.medianOfSorted samples =
        (samples.get? (samples.length / 2)).bind (fun a =>
          (samples.get? (samples.length / 2 + 1)).map (fun b => (a + b) / 2))
      from by simp [Results.medianOfSorted, hpos, heven], hnone]
    cases samples.get? (samples.length / 2) <;> rfl

/-- Witness for C9: the two-element sample list [1, 3] reads index 2 = rep,
out of bounds. -/
theorem results_median_spec_witness :
    ([(1 : ℚ), 3] : List ℚ).length / 2 + 1 = ([(1 : ℚ), 3] : List ℚ).length ∧
    Results.medianOfSorted [(1 : ℚ), 3] = none :=
  results_median_spec.2.2 [(1 : ℚ), 3] rfl

end Tightdb

namespace Tightdb

theorem lockBalance_append (a b : List Ev) :
    lockBalance (a ++ b) = lockBalance a + lockBalance b := by
  simp [lockBalance, List.count_append]
  ring

theorem uniqueLock_step_spec (op : ULOp) (g : UniqueLock) (held : Bool)
    (g1 : UniqueLock) (h1 : Bool) (tr : List Ev)
    (h : UniqueLock.step op (g, held) = some (g1, h1, tr)) :
    g1.m_is_locked = h1 ∧
    lockBalance tr = (if h1 then 1 else 0) - (if held then 1 else 0) := by
  cases op <;> cases held <;>
    simp [UniqueLock.step, UniqueLock.lockU, UniqueLock.unlockU,
      Mutex.lockM, Mutex.unlockM] at h <;>
    obtain ⟨hg, hh, htr⟩ := h <;> subst hg <;> subst hh <;> subst htr <;>
    simp [lockBalance]

theorem uniqueLock_run_spec (ops : List ULOp) :
    ∀ (g : UniqueLock) (held : Bool) (g1 : UniqueLock) (h1 : Bool)
      (tr : List Ev),
      g.m_is_locked = held →
      UniqueLock.run ops (g, held) = some (g1, h1, tr) →
      g1.m_is_locked = h1 ∧
      lockBalance tr = (if h1 then 1 else 0) - (if held then 1 else 0) := by
  induction ops with
  | nil =>
    intro g held g1 h1 tr hinv h
    simp [UniqueLock.run] at h
    obtain ⟨hg, hh, htr⟩ := h
    subst hg; subst hh; subst htr
    simp [lockBalance, hinv]
  | cons op ops ih =>
    intro g held g1 h1 tr hinv h
    simp only [UniqueLock.run] at h
    cases hstep : UniqueLock.step op (g, held) with
    | none => rw [hstep] at h; simp at h
    | some r =>
      obtain ⟨ga, ha, tra⟩ := r
      rw [hstep] at h
      simp only [Option.map_eq_some'] at h
      obtain ⟨rb, hrb, heq⟩ := h
      obtain ⟨gb, hb, trb⟩ := rb
      simp only [Prod.mk.injEq] at heq
      obtain ⟨hg1, hh1, htr⟩ := heq
      have hstep_spec := uniqueLock_step_spec op g held ga ha tra hstep
      have hrun_spec := ih ga ha gb hb trb hstep_spec.1 hrb
      subst hg1
      subst hh1
      subst htr
      refine ⟨hrun_spec.1, ?_⟩
      rw [lockBalance_append, hstep_spec.2, hrun_spec.2]
      ring

theorem uniqueLock_dtor_spec (g : UniqueLock) (held : Bool)
    (hinv : g.m_is_locked = held) :
    UniqueLock.dtor g held =
      some (false, if g.m_is_locked then [Ev.unlock] else []) := by
  cases hg : g.m_is_locked <;> rw [hg] at hinv <;>
    simp [UniqueLock.dtor, Mutex.unlockM, hg, ← hinv]

/-- C7: a LockGuard locks its mutex at construction and its destructor
unconditionally unlocks it exactly once; a UniqueLock's m_is_locked flag is
true exactly when the guard holds the mutex (true after construction from a
mutex alone, false after the defer_lock_tag construction, and updated by
lock()/unlock()); its destructor unlocks iff the flag is set, so over any
full guard lifetime every lock on the trace is matched by exactly one
unlock. -/
theorem guard_invariants_spec :
    (LockGuard.ctor false = some (true, [Ev.lock]) ∧
     LockGuard.scope = some (false, [Ev.lock, Ev.unlock]) ∧
     [Ev.lock, Ev.unlock].count Ev.unlock = 1) ∧
    (UniqueLock.ctor false =
      some ({ m_is_locked := true }, true, [Ev.lock]) ∧
     UniqueLock.ctorDefer.m_is_locked = false) ∧
    (∀ op g held g1 h1 tr,
      UniqueLock.step op (g, held) = some (g1, h1, tr) →
      g1.m_is_locked = h1) ∧
    (∀ g held, g.m_is_locked = held →
      UniqueLock.dtor g held =
        some (false, if g.m_is_locked then [Ev.unlock] else [])) ∧
    (∀ ops res, UniqueLock.lifecycle ops = some res →
      res.1 = false ∧ res.2.count Ev.lock = res.2.count Ev.unlock) := by
  refine ⟨⟨rfl, rfl, rfl⟩, ⟨rfl, rfl⟩, ?_, ?_, ?_⟩
  · intro op g held g1 h1 tr h
    exact (uniqueLock_step_spec op g held g1 h1 tr h).1
  · intro g held hinv
    exact uniqueLock_dtor_spec g held hinv
  · intro ops res h
    have hlife : UniqueLock.lifecycle ops =
        match UniqueLock.run ops ({ m_is_locked := true }, true) with
        | none => none
        | some (g1, h1, tr1) =>
          (UniqueLock.dtor g1 h1).map
            (fun r => (r.1, [Ev.lock] ++ tr1 ++ r.2)) := rfl
    rw [hlife] at h
    cases hrun : UniqueLock.run ops ({ m_is_locked := true }, true) with
    | none =>
      rw [hrun] at h
      exact Option.noConfusion h
    | some r =>
      obtain ⟨g1, h1, tr1⟩ := r
      rw [hrun] at h
      replace h : (UniqueLock.dtor g1 h1).map
          (fun r => (r.1, [Ev.lock] ++ tr1 ++ r.2)) = some res := h
      have hspec := uniqueLock_run_spec ops { m_is_locked := true } true
        g1 h1 tr1 rfl hrun
      rw [uniqueLock_dtor_spec g1 h1 hspec.1] at h
      simp only [Option.map_eq_some'] at h
      obtain ⟨rb, hrb, heq⟩ := h
      obtain ⟨hb, trb⟩ := rb
      simp only [Option.some.injEq, Prod.mk.injEq] at hrb
      obtain ⟨hb1, hb2⟩ := hrb
      subst heq
      refine ⟨by simpa using hb1.symm, ?_⟩
      have htrb : lockBalance trb = 0 - (if h1 then (1 : Int) else 0) := by
        rw [← hb2, hspec.1]
        rcases Bool.eq_false_or_eq_true h1 with hh | hh <;>
          rw [hh] <;> simp [lockBalance]
      have hbal : lockBalance ([Ev.lock] ++ tr1 ++ trb) = 0 := by
        rw [lockBalance_append, lockBalance_append, hspec.2, htrb]
        simp [lockBalance]
      show List.count Ev.lock ([Ev.lock] ++ tr1 ++ trb) =
        List.count Ev.unlock ([Ev.lock] ++ tr1 ++ trb)
      simp only [lockBalance] at hbal
      omega

end Tightdb

namespace Tightdb

/-- Witness for C7: a lifecycle with an extra unlock/relock pair still ends
with the mutex released and a balanced trace. -/
theorem guard_invariants_spec_witness :
    ((false, [Ev.lock, Ev.unlock, Ev.lock, Ev.unlock]) :
      Bool × List Ev).1 = false ∧
    List.count Ev.lock
        (((false, [Ev.lock, Ev.unlock, Ev.lock, Ev.unlock]) :
          Bool × List Ev).2) =
      List.count Ev.unlock
        (((false, [Ev.lock, Ev.unlock, Ev.lock, Ev.unlock]) :
          Bool × List Ev).2) :=
  guard_invariants_spec.2.2.2.2 [ULOp.unlock, ULOp.lock]
    (false, [Ev.lock, Ev.unlock, Ev.lock, Ev.unlock]) (by decide)

theorem mutexDelta_cons (e : Ev) (tr : List Ev) :
    mutexDelta (e :: tr) = evDelta e + mutexDelta tr := by
  simp [mutexDelta]

theorem mutexDelta_append (a b : List Ev) :
    mutexDelta (a ++ b) = mutexDelta a + mutexDelta b := by
  simp [mutexDelta]

theorem lockR_ret_delta :
    ∀ a b : Bool, (RobustMutex.lockR a b).2 = Outcome.ret →
      mutexDelta (RobustMutex.lockR a b).1 = 1 := by
  decide

theorem retryTrace_count_semPost (k : Nat) :
    (CondVar.retryTrace k).count Ev.semPost = k := by
  induction k with
  | zero => rfl
  | succ n ih => simp [CondVar.retryTrace, List.count_cons, ih]

theorem retryTrace_delta (k : Nat) :
    mutexDelta (CondVar.retryTrace k) = 1 := by
  induction k with
  | zero => rfl
  | succ n ih =>
    show mutexDelta (Ev.semWait :: Ev.lock :: Ev.semPost :: Ev.schedYield ::
      Ev.unlock :: CondVar.retryTrace n) = 1
    rw [mutexDelta_cons, mutexDelta_cons, mutexDelta_cons, mutexDelta_cons,
      mutexDelta_cons, ih]
    decide

theorem condvar_waitLoopLG_some (my : Nat) :
    ∀ (obs : List Nat) (tr : List Ev),
      CondVar.waitLoopLG my obs = some tr →
      ∃ pre c suf, obs = pre ++ c :: suf ∧ (∀ x ∈ pre, x = my) ∧ c ≠ my ∧
        tr = CondVar.retryTrace pre.length := by
  intro obs
  induction obs with
  | nil => intro tr h; exact Option.noConfusion h
  | cons c0 rest ih =>
    intro tr h
    by_cases hc : c0 = my
    · rw [show CondVar.waitLoopLG my (c0 :: rest) =
          (CondVar.waitLoopLG my rest).map
            (fun tr => Ev.semWait :: Ev.lock :: Ev.semPost :: Ev.schedYield ::
              Ev.unlock :: tr) from by simp [CondVar.waitLoopLG, hc]] at h
      simp only [Option.map_eq_some'] at h
      obtain ⟨tr0, h0, htr⟩ := h
      obtain ⟨pre, c, suf, hobs, hpre, hcm, htr0⟩ := ih tr0 h0
      subst htr
      refine ⟨c0 :: pre, c, suf, by rw [hobs]; rfl, ?_, hcm, ?_⟩
      · intro x hx
        rcases List.mem_cons.mp hx with h1 | h1
        · rw [h1]; exact hc
        · exact hpre x h1
      · rw [htr0]
        rfl
    · rw [show CondVar.waitLoopLG my (c0 :: rest) =
          some [Ev.semWait, Ev.lock] from by simp [CondVar.waitLoopLG, hc]] at h
      exact ⟨[], c0, rest, rfl, fun x hx => absurd hx (List.not_mem_nil x),
        hc, (Option.some.inj h).symm⟩

theorem condvar_waitLoopLG_ret (my : Nat) :
    ∀ (pre : List Nat) (c : Nat) (suf : List Nat),
      (∀ x ∈ pre, x = my) → c ≠ my →
      CondVar.waitLoopLG my (pre ++ c :: suf) =
        some (CondVar.retryTrace pre.length) := by
  intro pre
  induction pre with
  | nil =>
    intro c suf _ hc
    simp [CondVar.waitLoopLG, hc, CondVar.retryTrace]
  | cons p ps ih =>
    intro c suf hpre hc
    have hp : p = my := hpre p (List.mem_cons_self p ps)
    have hrec := ih c suf (fun x hx => hpre x (List.mem_cons_of_mem p hx)) hc
    show CondVar.waitLoopLG my (p :: (ps ++ c :: suf)) = _
    rw [show CondVar.waitLoopLG my (p :: (ps ++ c :: suf)) =
        (CondVar.waitLoopLG my (ps ++ c :: suf)).map
          (fun tr => Ev.semWait :: Ev.lock :: Ev.semPost :: Ev.schedYield ::
            Ev.unlock :: tr) from by simp [CondVar.waitLoopLG, hp], hrec]
    rfl

theorem condvar_waitLoopRM_ret (my : Nat) :
    ∀ (obs : List (CondVar.LockEnv × Nat)) (tr : List Ev),
      CondVar.waitLoopRM my obs = some (tr, Outcome.ret) →
      ∃ pre ec suf, obs = pre ++ ec :: suf ∧
        (∀ x ∈ pre, x.2 = my ∧
          (RobustMutex.lockR x.1.noThreadHasDied x.1.recoverOk).2 =
            Outcome.ret) ∧
        ec.2 ≠ my ∧
        (RobustMutex.lockR ec.1.noThreadHasDied ec.1.recoverOk).2 =
          Outcome.ret ∧
        mutexDelta (Ev.unlock :: tr) = 0 := by
  intro obs
  induction obs with
  | nil => intro tr h; exact Option.noConfusion h
  | cons e0 rest ih =>
    obtain ⟨env, c⟩ := e0
    intro tr h
    cases ho : (RobustMutex.lockR env.noThreadHasDied env.recoverOk).2 with
    | threw =>
      rw [show CondVar.waitLoopRM my ((env, c) :: rest) =
          some (Ev.semWait ::
            (RobustMutex.lockR env.noThreadHasDied env.recoverOk).1,
            Outcome.threw) from by simp [CondVar.waitLoopRM, ho]] at h
      simp at h
    | ret =>
      have hdel : mutexDelta
          (RobustMutex.lockR env.noThreadHasDied env.recoverOk).1 = 1 :=
        lockR_ret_delta env.noThreadHasDied env.recoverOk ho
      by_cases hc : c = my
      · rw [show CondVar.waitLoopRM my ((env, c) :: rest) =
            (CondVar.waitLoopRM my rest).map
              (fun p => (Ev.semWait ::
                (RobustMutex.lockR env.noThreadHasDied env.recoverOk).1 ++
                Ev.semPost :: Ev.schedYield :: Ev.unlock :: p.1, p.2))
            from by simp [CondVar.waitLoopRM, ho, hc]] at h
        simp only [Option.map_eq_some'] at h
        obtain ⟨p0, h0, hp⟩ := h
        obtain ⟨tr0, o0⟩ := p0
        simp only [Prod.mk.injEq] at hp
        obtain ⟨htr, ho0⟩ := hp
        subst ho0
        subst htr
        obtain ⟨pre0, ec0, suf0, hobs, hpre, hecm, hecr, hdelta⟩ :=
          ih tr0 h0
        refine ⟨(env, c) :: pre0, ec0, suf0, by rw [hobs]; rfl, ?_, hecm,
          hecr, ?_⟩
        · intro x hx
          rcases List.mem_cons.mp hx with h1 | h1
          · rw [h1]; exact ⟨hc, ho⟩
          · exact hpre x h1
        · have htr0 : mutexDelta tr0 = 1 := by
            rw [mutexDelta_cons] at hdelta
            simp only [evDelta] at hdelta
            omega
          simp only [mutexDelta_cons, mutexDelta_append, hdel, htr0]
          decide
      · rw [show CondVar.waitLoopRM my ((env, c) :: rest) =
            some (Ev.semWait ::
              (RobustMutex.lockR env.noThreadHasDied env.recoverOk).1,
              Outcome.ret) from by simp [CondVar.waitLoopRM, ho, hc]] at h
        simp only [Option.some.injEq, Prod.mk.injEq] at h
        obtain ⟨htr, _⟩ := h
        refine ⟨[], (env, c), rest, rfl,
          fun x hx => absurd hx (List.not_mem_nil x), hc, ho, ?_⟩
        rw [← htr, mutexDelta_cons, mutexDelta_cons, hdel]
        decide

end Tightdb

namespace Tightdb

/-- C2: in emulated process-shared mode, both CondVar.wait overloads first
increment the shared waiter count (uint32) and snapshot the signal counter
while still holding the mutex, then release the mutex and block on the
semaphore; the loop returns exactly when some iteration observes the counter
differ from the snapshot, and every iteration observing an unchanged counter
posts the permit back, yields, releases the mutex and retries; the trace of
a returning wait is balanced (the mutex is held again on return), with one
permit posted back per unsuccessful iteration.  For the robust overload,
every normal return likewise observed a counter different from the snapshot
after equal-counter retries, with a balanced trace. -/
theorem condvar_wait_emulation_spec :
    (∀ sp obs,
      CondVar.waitLG sp obs =
        ({ signal_counter := sp.signal_counter,
           waiters := (sp.waiters + 1) % 2 ^ 32 },
         (CondVar.waitLoopLG sp.signal_counter obs).map
           (fun tr => Ev.unlock :: tr))) ∧
    (∀ my obs tr, CondVar.waitLoopLG my obs = some tr →
      ∃ pre c suf, obs = pre ++ c :: suf ∧ (∀ x ∈ pre, x = my) ∧ c ≠ my ∧
        tr = CondVar.retryTrace pre.length) ∧
    (∀ my pre c suf, (∀ x ∈ pre, x = my) → c ≠ my →
      CondVar.waitLoopLG my (pre ++ c :: suf) =
        some (CondVar.retryTrace pre.length)) ∧
    (∀ k, (CondVar.retryTrace k).count Ev.semPost = k ∧
      mutexDelta (Ev.unlock :: CondVar.retryTrace k) = 0) ∧
    (∀ sp obs,
      CondVar.waitRM sp obs =
        ({ signal_counter := sp.signal_counter,
           waiters := (sp.waiters + 1) % 2 ^ 32 },
         (CondVar.waitLoopRM sp.signal_counter obs).map
           (fun p => (Ev.unlock :: p.1, p.2)))) ∧
    (∀ my obs tr, CondVar.waitLoopRM my obs = some (tr, Outcome.ret) →
      ∃ pre ec suf, obs = pre ++ ec :: suf ∧ (∀ x ∈ pre, x.2 = my) ∧
        ec.2 ≠ my ∧ mutexDelta (Ev.unlock :: tr) = 0) := by
  refine ⟨fun sp obs => rfl, condvar_waitLoopLG_some, condvar_waitLoopLG_ret,
    ?_, fun sp obs => rfl, ?_⟩
  · intro k
    refine ⟨retryTrace_count_semPost k, ?_⟩
    rw [mutexDelta_cons, retryTrace_delta]
    decide
  · intro my obs tr h
    obtain ⟨pre, ec, suf, hobs, hpre, hecm, _, hdelta⟩ :=
      condvar_waitLoopRM_ret my obs tr h
    exact ⟨pre, ec, suf, hobs, fun x hx => (hpre x hx).1, hecm, hdelta⟩

/-- Witness for C2: a waiter whose first reacquisition still sees the
snapshot 5 retries once, and returns when it then sees 7. -/
theorem condvar_wait_emulation_spec_witness :
    CondVar.waitLoopLG 5 [5, 7] = some (CondVar.retryTrace 1) :=
  condvar_wait_emulation_spec.2.2.1 5 [5] 7 [] (by decide) (by decide)

end Tightdb
